import Mathlib

/-!
Verification of `compare-contiguous-pics.py`: a script that lists images in a
directory, sorts them by the numeric value of the last digit run in each
filename, converts each to YUV via ffmpeg, compares adjacent pairs with the
vmaf tool, and writes the scores to a CSV file.

The Python source is shallowly embedded below: pure computations (filename
filtering, sort keys, command construction, JSON field extraction) become
Lean functions, and the effectful `main` becomes a pure function from an
environment (directory listing, CLI arguments, and oracles for the external
tools' exit statuses and result files) to a trace of effects together with a
final outcome.
-/

namespace ComparePics

/-! ### Decimal digits

Models Python's handling of decimal digit characters: `int()` applied to a
digit string (used in the sort key `int(re.findall(r'\d+', x)[-1])`) and
`str()` applied to a non-negative integer (used in the f-strings building the
JSON result paths `compare_{i-1}_{i}.json`).  We model the ASCII digit case;
the `re` module's `\d` additionally matches non-ASCII Unicode digits, which
no claim exercises. -/

/-- Numeric value of an ASCII digit character, as used by Python `int()`. -/
def digitVal (c : Char) : Nat := c.toNat - 48

/-- The decimal value of a digit string, as computed by Python `int()`
on a string of digits. -/
def valOfDigits (cs : List Char) : Nat :=
  cs.foldl (fun a c => 10 * a + digitVal c) 0

/-- The ASCII character for a decimal digit (argument taken < 10). -/
def digitChar : Nat → Char
  | 0 => '0' | 1 => '1' | 2 => '2' | 3 => '3' | 4 => '4'
  | 5 => '5' | 6 => '6' | 7 => '7' | 8 => '8' | _ => '9'

/-- Fuel-indexed digit printer: `decDigitsAux fuel n acc` prepends the decimal
digits of `n` to `acc`.  Any `fuel > n` is enough. -/
def decDigitsAux : Nat → Nat → List Char → List Char
  | 0, _, acc => acc
  | fuel + 1, n, acc =>
    if n < 10 then digitChar n :: acc
    else decDigitsAux fuel (n / 10) (digitChar (n % 10) :: acc)

/-- Decimal digits of `n`, most significant first; models Python `str(n)`
for a non-negative integer. -/
def decDigits (n : Nat) : List Char := decDigitsAux (n + 1) n []

/-- Python `str(n)` for a non-negative integer `n`. -/
def natStr (n : Nat) : String := ⟨decDigits n⟩

/-! ### The Lister (`get_sorted_image_list`, source lines 47-49) -/

/-- `digitRunsAux cs cur` scans `cs` with `cur` holding the reversed digits of
the digit run currently being read. -/
def digitRunsAux : List Char → List Char → List (List Char)
  | [], cur => if cur.isEmpty then [] else [cur.reverse]
  | c :: cs, cur =>
    if c.isDigit then digitRunsAux cs (c :: cur)
    else if cur.isEmpty then digitRunsAux cs []
    else cur.reverse :: digitRunsAux cs []

/-- The maximal runs of consecutive digit characters in a string, in order;
models Python `re.findall(r'\d+', x)`. -/
def digitRuns (cs : List Char) : List (List Char) := digitRunsAux cs []

/-- The sort key of a filename: the numeric value of the last digit run, or
`none` when the name has no digits; models `int(re.findall(r'\d+', x)[-1])`,
which raises `IndexError` in the `none` case. -/
def lastRunKey (f : String) : Option Nat :=
  ((digitRuns f.data).getLast?).map valOfDigits

/-- The sort key with a default, for stating sortedness of the output. -/
def keyOf (f : String) : Nat := (lastRunKey f).getD 0

/-- Models Python `f.endswith('.' + extension)`. -/
def endsWithExt (ext : String) (f : String) : Bool :=
  ("." ++ ext).data.isSuffixOf f.data

/-- Pair each filename with its sort key; `none` as soon as some filename has
no digit run, modelling the `IndexError` raised while `sorted` computes the
keys (CPython computes the key of every element, even for lists of length 1).
-/
def keyImages : List String → Option (List (String × Nat))
  | [] => some []
  | f :: fs =>
    match lastRunKey f, keyImages fs with
    | some k, some rest => some ((f, k) :: rest)
    | _, _ => none

/-- Comparison used by the sort: ascending by numeric key.  Python's `sorted`
is stable, and `List.insertionSort` with this (non-strict) relation inserts
each element after existing equal-key elements, which is the same stable
order. -/
def keyLe (a b : String × Nat) : Prop := a.2 ≤ b.2

instance : DecidableRel keyLe := fun a b => Nat.decLe a.2 b.2

instance : IsTotal (String × Nat) keyLe := ⟨fun a b => Nat.le_total a.2 b.2⟩

instance : IsTrans (String × Nat) keyLe := ⟨fun _ _ _ hab hbc => Nat.le_trans hab hbc⟩

/-- The Lister, from source lines 47-49:
`sorted([f for f in os.listdir(directory) if f.endswith(f'.{extension}')],
key=lambda x: int(re.findall(r'\d+', x)[-1]))`.
The directory listing is passed in as `listing` (the result of `os.listdir`);
`none` models the `IndexError` escaping when some matching filename has no
digits. -/
def get_sorted_image_list (listing : List String) (ext : String) :
    Option (List String) :=
  match keyImages (listing.filter (endsWithExt ext)) with
  | none => none
  | some keyed => some ((List.insertionSort keyLe keyed).map Prod.fst)

/-! ### Paths -/

/-- The index of the last `'.'` in a name, if any; models Python
`name.rfind('.')` (with `none` for the `-1` case). -/
def lastDotIdx (cs : List Char) : Option Nat :=
  match cs.reverse.findIdx? (fun c => c == '.') with
  | none => none
  | some r => some (cs.length - 1 - r)

/-- Models `pathlib.PurePath(name).stem` for a bare filename: the name with
its final extension removed; the extension is `name[i:]` for the last dot
index `i` only when `0 < i < len(name) - 1`. -/
def pyStem (f : String) : String :=
  match lastDotIdx f.data with
  | none => f
  | some i => if 0 < i ∧ i < f.data.length - 1 then ⟨f.data.take i⟩ else f

/-- Models `str(Path(d) / f)` for a normalized directory path `d` (no
trailing slash, not `"."`). -/
def joinPath (d f : String) : String := d ++ "/" ++ f

/-- The YUV destination for an image, from source line 101:
`Path(yuv_dir) / f"{Path(image).stem}.yuv"` with `yuv_dir = Path('yuv_dir')`. -/
def yuvPathOf (img : String) : String := "yuv_dir/" ++ pyStem img ++ ".yuv"

/-- The per-pair result path, from source line 108:
`json_dir / f"compare_{i-1}_{i}.json"` where the pair index `j` below is
`i - 1`. -/
def jsonPath (j : Nat) : String :=
  "json_dir/compare_" ++ natStr j ++ "_" ++ natStr (j + 1) ++ ".json"

/-! ### External tool command lines -/

/-- The ffmpeg command built by `convert_to_yuv`, source lines 52-55. -/
def convert_to_yuv_command (image_path yuv_path : String) : List String :=
  ["ffmpeg", "-i", image_path, "-s", "1920x1080", "-pix_fmt", "yuv422p",
    yuv_path]

/-- The vmaf command built by `compare_yuv_files`, source lines 59-62. -/
def compare_yuv_files_command (vmaf_exe yuv_file_1 yuv_file_2
    json_output_path : String) : List String :=
  [vmaf_exe, "-r", yuv_file_1, "-d", yuv_file_2, "--width", "1920",
    "--height", "1080", "--pixel_format", "422", "--bitdepth", "8",
    "--json", "--output", json_output_path]

/-! ### JSON values and score extraction (`compare_yuv_files`, lines 71-75) -/

/-- JSON values, as produced by Python `json.load`. -/
inductive Json where
  | null
  | bool (b : Bool)
  | num (q : Rat)
  | str (s : String)
  | arr (elements : List Json)
  | obj (members : List (String × Json))

/-- Python `d[key]` on a parsed JSON object; `none` models the `KeyError`
(or `TypeError` on a non-object). -/
def Json.lookup : Json → String → Option Json
  | .obj ms, key => ms.lookup key
  | _, _ => none

/-- Python `xs[i]` on a parsed JSON array; `none` models the `IndexError`
(or `TypeError` on a non-array). -/
def Json.index : Json → Nat → Option Json
  | .arr xs, i => xs[i]?
  | _, _ => none

/-- Source line 74: `vmaf_data['frames'][0]['metrics']['vmaf']`. -/
def extract_vmaf_score (j : Json) : Option Json :=
  (((j.lookup "frames").bind (fun fr => fr.index 0)).bind
    (fun fr0 => fr0.lookup "metrics")).bind
    (fun m => m.lookup "vmaf")

/-! ### The run: effects, errors, environment -/

/-- One row of `comparison_results`, source lines 110-114. -/
structure CsvRow where
  image1 : String
  image2 : String
  score : Json

/-- Observable effects of a run, in order of occurrence.  `runProcess`
records the argument vector handed to `subprocess.run` together with whether
the process exited zero; `mkdir` records `Path.mkdir(exist_ok=True)`;
`writeCsv` records the header and rows written by `csv.DictWriter` to the
file opened with mode `'w'`. -/
inductive Effect where
  | print (s : String)
  | mkdir (p : String)
  | runProcess (cmd : List String) (exitZero : Bool)
  | writeCsv (path : String) (header : List String) (rows : List CsvRow)

/-- How a run can fail, in the spec's error taxonomy: `invalidInput` is the
`IndexError` from a digit-less filename, `externalToolError` the
`CalledProcessError` from `subprocess.run(..., check=True)`, and
`malformedResult` an unreadable/unparsable result file or a missing field in
it. -/
inductive RunError where
  | invalidInput
  | externalToolError
  | malformedResult
deriving DecidableEq

/-- The world a run executes in: the directory listing seen by `os.listdir`,
the CLI arguments, and oracles describing the external tools: whether the
`k`-th conversion exits zero, whether the `j`-th comparison exits zero, and
the parsed content of the `j`-th comparison's result file (`none` when
missing or unparsable). -/
structure Env where
  listing : List String
  dir : String
  ext : String
  vmafExe : String
  outputCsv : String
  convertOk : Nat → Bool
  compareOk : Nat → Bool
  resultFile : Nat → Option Json

/-- The conversion loop, source lines 99-103: one `convert_to_yuv` call per
image, in order; `check=True` aborts the run at the first non-zero exit. -/
def convertLoop (env : Env) : Nat → List String →
    List Effect × Except RunError Unit
  | _, [] => ([], .ok ())
  | k, img :: rest =>
    let cmd := convert_to_yuv_command (joinPath env.dir img) (yuvPathOf img)
    if env.convertOk k then
      let r := convertLoop env (k + 1) rest
      (.runProcess cmd true :: r.1, r.2)
    else
      ([.runProcess cmd false], .error .externalToolError)

/-- The comparison loop, source lines 107-114, over the adjacent pairs
`(images[i-1], images[i])`; the pair index `j` is `i - 1`.  Each iteration is
one `compare_yuv_files` call: print the command (line 63), run it
(`check=True`), then parse the result file and extract the score. -/
def compareLoop (env : Env) : Nat → List (String × String) →
    List Effect × Except RunError (List CsvRow)
  | _, [] => ([], .ok [])
  | j, (a, b) :: rest =>
    let cmd := compare_yuv_files_command env.vmafExe (yuvPathOf a)
      (yuvPathOf b) (jsonPath j)
    if env.compareOk j then
      match (env.resultFile j).bind extract_vmaf_score with
      | none =>
        ([.print (String.intercalate " " cmd), .runProcess cmd true],
          .error .malformedResult)
      | some v =>
        let r := compareLoop env (j + 1) rest
        (.print (String.intercalate " " cmd) :: .runProcess cmd true :: r.1,
          r.2.map (fun rows => ⟨a, b, v⟩ :: rows))
    else
      ([.print (String.intercalate " " cmd), .runProcess cmd false],
        .error .externalToolError)

/-- The whole run: `main`, source lines 77-122. -/
def mainRun (env : Env) : List Effect × Except RunError Unit :=
  match get_sorted_image_list env.listing env.ext with
  | none => ([], .error .invalidInput)
  | some images =>
    if images.length < 2 then
      ([.print "Not enough images to compare."], .ok ())
    else
      match convertLoop env 0 images with
      | (ctr, .error e) =>
        (.mkdir "yuv_dir" :: .mkdir "json_dir" :: ctr, .error e)
      | (ctr, .ok _) =>
        match compareLoop env 0 (images.zip images.tail) with
        | (ptr, .error e) =>
          (.mkdir "yuv_dir" :: .mkdir "json_dir" :: (ctr ++ ptr), .error e)
        | (ptr, .ok rows) =>
          (.mkdir "yuv_dir" :: .mkdir "json_dir" :: (ctr ++ ptr ++
            [.writeCsv env.outputCsv ["Image 1", "Image 2", "VMAF Score"]
              rows,
             .print ("Comparison completed. Results saved to "
               ++ env.outputCsv)]), .ok ())

/-! ### Modelled filesystem -/

/-- Contents a run can leave in a file. -/
inductive FileData where
  | yuvData
  | jsonData
  | csvData (header : List String) (rows : List CsvRow)

/-- Modelled from the spec: the write effects of the external tools, which
are outside this repository.  Per the spec's collaborator contracts, a
successful conversion "produces a raw frame file at `<dst>`" (the last
argument of the ffmpeg command, distinguished by its second argument `-i`),
a successful scoring run "writes a structured result file" at its `--output`
path (the last argument of the vmaf command, distinguished by `-r`), and the
Reporter's CSV write "overwrites the destination file if present". -/
def applyEffect (fs : String → Option FileData) :
    Effect → String → Option FileData
  | .runProcess cmd true =>
    if cmd[1]? = some "-i" then
      fun p => if some p = cmd.getLast? then some .yuvData else fs p
    else if cmd[1]? = some "-r" then
      fun p => if some p = cmd.getLast? then some .jsonData else fs p
    else fs
  | .writeCsv path header rows =>
    fun p => if p = path then some (.csvData header rows) else fs p
  | _ => fs

/-- The filesystem after executing a trace of effects, starting from `fs`. -/
def fsAfter (fs : String → Option FileData) :
    List Effect → String → Option FileData
  | [] => fs
  | e :: rest => fsAfter (applyEffect fs e) rest

/-! ### Trace observations -/

/-- Is this effect an invocation of the conversion tool?  Conversion
commands have `-i` as their second entry; comparison commands have `-r`. -/
def isConvertRun : Effect → Bool
  | .runProcess cmd _ => cmd[1]? = some "-i"
  | _ => false

/-- Is this effect an invocation of the scoring tool? -/
def isCompareRun : Effect → Bool
  | .runProcess cmd _ => cmd[1]? = some "-r"
  | _ => false

/-- Is this effect a CSV write? -/
def isCsvWrite : Effect → Bool
  | .writeCsv _ _ _ => true
  | _ => false

/-- A trace with no failed process invocation. -/
def cleanT (tr : List Effect) : Prop :=
  ∀ c, Effect.runProcess c false ∉ tr

/-- A trace with no CSV write. -/
def noCsvT (tr : List Effect) : Prop :=
  ∀ p h r, Effect.writeCsv p h r ∉ tr

/-! ### Expected traces of a fully successful run -/

/-- The conversion effects of a successful run, one per image in order. -/
def convertEffects (env : Env) : List String → List Effect
  | [] => []
  | img :: rest =>
    .runProcess (convert_to_yuv_command (joinPath env.dir img)
      (yuvPathOf img)) true :: convertEffects env rest

/-- The comparison effects of a successful run, two per adjacent pair
(the printed command line, then the invocation). -/
def compareEffects (env : Env) : Nat → List (String × String) → List Effect
  | _, [] => []
  | j, (a, b) :: rest =>
    .print (String.intercalate " " (compare_yuv_files_command env.vmafExe
      (yuvPathOf a) (yuvPathOf b) (jsonPath j))) ::
    .runProcess (compare_yuv_files_command env.vmafExe (yuvPathOf a)
      (yuvPathOf b) (jsonPath j)) true ::
    compareEffects env (j + 1) rest

/-- Just the scoring-tool invocations of a successful run, in order. -/
def compareRuns (env : Env) : Nat → List (String × String) → List Effect
  | _, [] => []
  | j, (a, b) :: rest =>
    .runProcess (compare_yuv_files_command env.vmafExe (yuvPathOf a)
      (yuvPathOf b) (jsonPath j)) true ::
    compareRuns env (j + 1) rest

/-- The rows accumulated by a successful run, one per adjacent pair. -/
def compareRows (env : Env) : Nat → List (String × String) → List CsvRow
  | _, [] => []
  | j, (a, b) :: rest =>
    ⟨a, b, ((env.resultFile j).bind extract_vmaf_score).getD .null⟩ ::
    compareRows env (j + 1) rest

/-! ### Concrete environments used as test inputs -/

/-- A result file with the single score `q`, as written by the scoring tool:
the JSON text would read as in
`{"frames": [{"metrics": {"vmaf": 97.43}}]}`. -/
def mkResult (q : Rat) : Json :=
  .obj [("frames", .arr [.obj [("metrics", .obj [("vmaf", .num q)])]])]

/-- A directory with three images and well-behaved tools: scores 90 for the
first pair and 95.5 for the second. -/
def env3 : Env where
  listing := ["a2.png", "a3.png", "a1.png"]
  dir := "pics"
  ext := "png"
  vmafExe := "vmaf"
  outputCsv := "comparison.csv"
  convertOk := fun _ => true
  compareOk := fun _ => true
  resultFile := fun j => if j = 0 then some (mkResult 90)
    else some (mkResult 95.5)

/-- A directory with a single matching image. -/
def envOne : Env :=
  { env3 with listing := ["a1.png"] }

/-- A directory whose only file matches the extension filter but contains no
digits. -/
def envNoDigit : Env :=
  { env3 with listing := ["noDigitsHere.png"] }

/-- Two images, with a conversion tool that always exits non-zero. -/
def envConvFail : Env :=
  { env3 with listing := ["a1.png", "a2.png"], convertOk := fun _ => false }

/-! ### Lemmas: decimal printing -/

theorem digitVal_digitChar {d : Nat} (h : d < 10) :
    digitVal (digitChar d) = d := by
  interval_cases d <;> rfl

theorem digitChar_isDigit (d : Nat) : (digitChar d).isDigit = true := by
  unfold digitChar
  split <;> rfl

theorem valOfDigits_append_one (ds : List Char) (c : Char) :
    valOfDigits (ds ++ [c]) = 10 * valOfDigits ds + digitVal c := by
  unfold valOfDigits
  rw [List.foldl_append]
  rfl

theorem decDigitsAux_acc :
    ∀ fuel n acc, n < fuel →
      decDigitsAux fuel n acc = decDigitsAux fuel n [] ++ acc := by
  intro fuel
  induction fuel with
  | zero => omega
  | succ f ih =>
    intro n acc h
    by_cases h10 : n < 10
    · simp [decDigitsAux, h10]
    · have hdiv : n / 10 < n := Nat.div_lt_self (by omega) (by omega)
      simp only [decDigitsAux, if_neg h10]
      rw [ih (n / 10) (digitChar (n % 10) :: acc) (by omega),
        ih (n / 10) [digitChar (n % 10)] (by omega), List.append_assoc]
      rfl

theorem decDigitsAux_eq_decDigits :
    ∀ n fuel, n < fuel → decDigitsAux fuel n [] = decDigits n := by
  intro n
  induction n using Nat.strong_induction_on with
  | _ n ih =>
    intro fuel hf
    match fuel, hf with
    | f + 1, hf =>
      by_cases h10 : n < 10
      · simp [decDigitsAux, h10, decDigits]
      · have hdiv : n / 10 < n := Nat.div_lt_self (by omega) (by omega)
        simp only [decDigits, decDigitsAux, if_neg h10]
        rw [decDigitsAux_acc f (n / 10) _ (by omega),
          decDigitsAux_acc n (n / 10) _ (by omega),
          ih (n / 10) hdiv f (by omega), ih (n / 10) hdiv n (by omega)]

theorem decDigits_lt {n : Nat} (h : n < 10) :
    decDigits n = [digitChar n] := by
  simp [decDigits, decDigitsAux, h]

theorem decDigits_ge {n : Nat} (h : 10 ≤ n) :
    decDigits n = decDigits (n / 10) ++ [digitChar (n % 10)] := by
  have hdiv : n / 10 < n := Nat.div_lt_self (by omega) (by omega)
  conv_lhs => rw [decDigits]
  simp only [decDigitsAux, if_neg (by omega : ¬ n < 10)]
  rw [decDigitsAux_acc n (n / 10) _ (by omega),
    decDigitsAux_eq_decDigits (n / 10) n (by omega)]

theorem valOfDigits_decDigits (n : Nat) : valOfDigits (decDigits n) = n := by
  induction n using Nat.strong_induction_on with
  | _ n ih =>
    by_cases h10 : n < 10
    · rw [decDigits_lt h10]
      show 10 * 0 + digitVal (digitChar n) = n
      rw [digitVal_digitChar h10]
      omega
    · have hdiv : n / 10 < n := Nat.div_lt_self (by omega) (by omega)
      rw [decDigits_ge (by omega), valOfDigits_append_one, ih (n / 10) hdiv,
        digitVal_digitChar (Nat.mod_lt n (by omega))]
      omega

theorem decDigits_all_digits (n : Nat) :
    ∀ c ∈ decDigits n, c.isDigit = true := by
  induction n using Nat.strong_induction_on with
  | _ n ih =>
    by_cases h10 : n < 10
    · rw [decDigits_lt h10]
      intro c hc
      rw [List.mem_singleton] at hc
      subst hc
      exact digitChar_isDigit n
    · have hdiv : n / 10 < n := Nat.div_lt_self (by omega) (by omega)
      rw [decDigits_ge (by omega)]
      intro c hc
      rcases List.mem_append.mp hc with h | h
      · exact ih (n / 10) hdiv c h
      · rw [List.mem_singleton] at h
        subst h
        exact digitChar_isDigit (n % 10)

theorem decDigits_injective : Function.Injective decDigits := by
  intro m n h
  have := valOfDigits_decDigits m
  rw [h, valOfDigits_decDigits] at this
  omega

theorem natStr_injective : Function.Injective natStr := by
  intro m n h
  exact decDigits_injective (congrArg String.data h)

theorem takeWhile_digits_append (ds rest : List Char)
    (hds : ∀ c ∈ ds, c.isDigit = true) :
    (ds ++ '_' :: rest).takeWhile Char.isDigit = ds := by
  induction ds with
  | nil => rfl
  | cons c cs ih =>
    have hc : c.isDigit = true := hds c (List.mem_cons_self c cs)
    simp only [List.cons_append, List.takeWhile_cons, hc, if_true]
    rw [ih (fun x hx => hds x (List.mem_cons_of_mem c hx))]

theorem jsonPath_injective : Function.Injective jsonPath := by
  intro j j' h
  have hdata : ("json_dir/compare_".data ++ (decDigits j ++ '_' ::
      (decDigits (j + 1) ++ ".json".data))) =
      ("json_dir/compare_".data ++ (decDigits j' ++ '_' ::
      (decDigits (j' + 1) ++ ".json".data))) := by
    have := congrArg String.data h
    simpa [jsonPath, natStr, String.data_append] using this
  have hmid := List.append_cancel_left hdata
  have htw := congrArg (List.takeWhile Char.isDigit) hmid
  rw [takeWhile_digits_append _ _ (decDigits_all_digits j),
    takeWhile_digits_append _ _ (decDigits_all_digits j')] at htw
  exact decDigits_injective htw

/-! ### Lemmas: the Lister -/

theorem lastRunKey_isSome {f : String} (h : digitRuns f.data ≠ []) :
    ∃ k, lastRunKey f = some k := by
  unfold lastRunKey
  cases hg : (digitRuns f.data).getLast? with
  | none => exact absurd (List.getLast?_eq_none_iff.mp hg) h
  | some run => exact ⟨valOfDigits run, rfl⟩

theorem keyImages_some (l : List String)
    (h : ∀ f ∈ l, digitRuns f.data ≠ []) :
    ∃ keyed, keyImages l = some keyed ∧ keyed.map Prod.fst = l ∧
      ∀ p ∈ keyed, lastRunKey p.1 = some p.2 := by
  induction l with
  | nil => exact ⟨[], rfl, rfl, by simp⟩
  | cons f fs ih =>
    obtain ⟨k, hk⟩ := lastRunKey_isSome (h f (List.mem_cons_self f fs))
    obtain ⟨keyed, hkeyed, hmap, hkeys⟩ :=
      ih (fun g hg => h g (List.mem_cons_of_mem f hg))
    refine ⟨(f, k) :: keyed, ?_, ?_, ?_⟩
    · unfold keyImages
      rw [hk, hkeyed]
    · simp [hmap]
    · intro p hp
      rcases List.mem_cons.mp hp with h' | h'
      · subst h'
        exact hk
      · exact hkeys p h'

theorem keyImages_none {l : List String} {f : String} (hf : f ∈ l)
    (hnone : lastRunKey f = none) : keyImages l = none := by
  induction l with
  | nil => cases hf
  | cons g gs ih =>
    rcases List.mem_cons.mp hf with h' | h'
    · subst h'
      unfold keyImages
      rw [hnone]
    · unfold keyImages
      rw [ih h']
      cases lastRunKey g <;> rfl

/-- Claim C1: on listings where every filename matching the extension filter
contains a digit run, the Lister returns a permutation of the filtered
filenames, sorted ascending by the numeric value of the last digit run; and
on `["a10.png", "a2.png", "a1.png"]` with extension `png` it returns
`["a1.png", "a2.png", "a10.png"]` (numeric, not lexical, order). -/
theorem c1_lister_sorted_perm (listing : List String) (ext : String)
    (h : ∀ f ∈ listing.filter (endsWithExt ext), digitRuns f.data ≠ []) :
    (∃ out, get_sorted_image_list listing ext = some out ∧
      out.Perm (listing.filter (endsWithExt ext)) ∧
      out.Pairwise (fun a b => keyOf a ≤ keyOf b)) ∧
    get_sorted_image_list ["a10.png", "a2.png", "a1.png"] "png" =
      some ["a1.png", "a2.png", "a10.png"] := by
  refine ⟨?_, by decide⟩
  obtain ⟨keyed, hkeyed, hmap, hkeys⟩ := keyImages_some _ h
  refine ⟨(List.insertionSort keyLe keyed).map Prod.fst, ?_, ?_, ?_⟩
  · unfold get_sorted_image_list
    rw [hkeyed]
  · have hperm := (List.perm_insertionSort keyLe keyed).map Prod.fst
    rwa [hmap] at hperm
  · have hsort : (List.insertionSort keyLe keyed).Pairwise keyLe :=
      List.sorted_insertionSort keyLe keyed
    rw [List.pairwise_map]
    refine hsort.imp_of_mem (fun {a b} ha hb hr => ?_)
    have ha' := hkeys a (((List.perm_insertionSort keyLe keyed).mem_iff).mp ha)
    have hb' := hkeys b (((List.perm_insertionSort keyLe keyed).mem_iff).mp hb)
    unfold keyOf
    rw [ha', hb']
    exact hr

/-- Witness for C1 at listing `["a10.png", "a2.png", "a1.png"]`, ext `png`. -/
theorem c1_witness :
    ∃ out, get_sorted_image_list ["a10.png", "a2.png", "a1.png"] "png" =
        some out ∧
      out.Perm (["a10.png", "a2.png", "a1.png"].filter (endsWithExt "png")) ∧
      out.Pairwise (fun a b => keyOf a ≤ keyOf b) :=
  (c1_lister_sorted_perm ["a10.png", "a2.png", "a1.png"] "png"
    (by decide)).1

/-! ### Claims C6, C5, C10: the early termination paths -/

/-- Claim C6: a filename that matches the extension filter but contains no
digit run makes the Lister fail with the InvalidInput error (the
`IndexError` from `re.findall(...)[-1]`), which surfaces and aborts the run
with an empty effect trace — the file is not silently skipped. -/
theorem c6_lister_invalid_input (env : Env) (f : String)
    (hf : f ∈ env.listing) (hmatch : endsWithExt env.ext f = true)
    (hnodigits : digitRuns f.data = []) :
    get_sorted_image_list env.listing env.ext = none ∧
    mainRun env = ([], .error .invalidInput) := by
  have hkey : lastRunKey f = none := by
    unfold lastRunKey
    rw [hnodigits]
    rfl
  have hmem : f ∈ env.listing.filter (endsWithExt env.ext) :=
    List.mem_filter.mpr ⟨hf, hmatch⟩
  have hsorted : get_sorted_image_list env.listing env.ext = none := by
    unfold get_sorted_image_list
    rw [keyImages_none hmem hkey]
  refine ⟨hsorted, ?_⟩
  unfold mainRun
  rw [hsorted]

/-- Witness for C6 at the listing `["noDigitsHere.png"]`. -/
theorem c6_witness :
    get_sorted_image_list envNoDigit.listing envNoDigit.ext = none ∧
    mainRun envNoDigit = ([], .error .invalidInput) :=
  c6_lister_invalid_input envNoDigit "noDigitsHere.png" (by decide)
    (by decide) (by decide)

/-- Counterexample to Claim C5 as stated: in the run on the listing
`["noDigitsHere.png"]` with extension `png`, fewer than 2 filenames match
the extension filter, yet the run does not terminate cleanly and prints
nothing — it aborts with the InvalidInput error raised while sorting. -/
theorem c5_counterexample :
    (envNoDigit.listing.filter (endsWithExt envNoDigit.ext)).length < 2 ∧
    (mainRun envNoDigit).2 ≠ .ok () ∧
    ∀ s, Effect.print s ∉ (mainRun envNoDigit).1 := by
  refine ⟨by decide, ?_, ?_⟩
  · have : (mainRun envNoDigit).2 = .error .invalidInput := rfl
    rw [this]
    intro h
    cases h
  · have : (mainRun envNoDigit).1 = [] := rfl
    rw [this]
    intro s h
    cases h

/-- Claim C5 as amended: when fewer than 2 filenames match the extension
filter *and every matching filename contains at least one digit run*, the
run terminates cleanly, printing exactly "Not enough images to compare.";
no external tool is invoked and no CSV file is written. -/
theorem c5_amended_clean_exit (env : Env)
    (hcount : (env.listing.filter (endsWithExt env.ext)).length < 2)
    (hdigits : ∀ f ∈ env.listing.filter (endsWithExt env.ext),
      digitRuns f.data ≠ []) :
    mainRun env = ([.print "Not enough images to compare."], .ok ()) ∧
    (∀ cmd b, Effect.runProcess cmd b ∉ (mainRun env).1) ∧
    ∀ p h r, Effect.writeCsv p h r ∉ (mainRun env).1 := by
  obtain ⟨keyed, hkeyed, hmap, _⟩ := keyImages_some _ hdigits
  have hsorted : get_sorted_image_list env.listing env.ext =
      some ((List.insertionSort keyLe keyed).map Prod.fst) := by
    unfold get_sorted_image_list
    rw [hkeyed]
  have hlen : ((List.insertionSort keyLe keyed).map Prod.fst).length < 2 := by
    rw [List.length_map, (List.perm_insertionSort keyLe keyed).length_eq]
    have := congrArg List.length hmap
    rw [List.length_map] at this
    omega
  have hrun : mainRun env =
      ([.print "Not enough images to compare."], .ok ()) := by
    unfold mainRun
    rw [hsorted]
    simp only [if_pos hlen]
  refine ⟨hrun, ?_, ?_⟩ <;> rw [hrun] <;> intro _ _ <;> simp

/-- Witness for the amended C5 at the listing `["a1.png"]`. -/
theorem c5_witness :
    mainRun envOne = ([.print "Not enough images to compare."], .ok ()) ∧
    (∀ cmd b, Effect.runProcess cmd b ∉ (mainRun envOne).1) ∧
    ∀ p h r, Effect.writeCsv p h r ∉ (mainRun envOne).1 :=
  c5_amended_clean_exit envOne (by decide) (by decide)

/-- Claim C10: when the Lister returns fewer than 2 matching filenames, the
run stops before the working directories are created, before any external
process is invoked and before the CSV is opened: the only effect is the
message, and the modelled filesystem is untouched from any initial state. -/
theorem c10_short_listing_no_effects (env : Env) (images : List String)
    (hsorted : get_sorted_image_list env.listing env.ext = some images)
    (hlen : images.length < 2) :
    mainRun env = ([.print "Not enough images to compare."], .ok ()) ∧
    (∀ p, Effect.mkdir p ∉ (mainRun env).1) ∧
    (∀ cmd b, Effect.runProcess cmd b ∉ (mainRun env).1) ∧
    (∀ p h r, Effect.writeCsv p h r ∉ (mainRun env).1) ∧
    ∀ fs0 p, fsAfter fs0 (mainRun env).1 p = fs0 p := by
  have hrun : mainRun env =
      ([.print "Not enough images to compare."], .ok ()) := by
    unfold mainRun
    rw [hsorted]
    simp only [if_pos hlen]
  refine ⟨hrun, ?_, ?_, ?_, ?_⟩ <;> rw [hrun]
  · intro p
    simp
  · intro cmd b
    simp
  · intro p h r
    simp
  · intro fs0 p
    rfl

/-- Witness for C10 at the listing `["a1.png"]`. -/
theorem c10_witness :
    mainRun envOne = ([.print "Not enough images to compare."], .ok ()) ∧
    (∀ p, Effect.mkdir p ∉ (mainRun envOne).1) ∧
    (∀ cmd b, Effect.runProcess cmd b ∉ (mainRun envOne).1) ∧
    (∀ p h r, Effect.writeCsv p h r ∉ (mainRun envOne).1) ∧
    ∀ fs0 p, fsAfter fs0 (mainRun envOne).1 p = fs0 p :=
  c10_short_listing_no_effects envOne ["a1.png"] (by decide) (by decide)

/-! ### Claim C3: score extraction -/

/-- Claim C3: when the parsed result is an object whose "frames" sequence has
a first element with a "metrics" mapping containing the "vmaf" field, the
Comparator's parsing step returns exactly that field's value; in particular
on the parse of `{"frames": [{"metrics": {"vmaf": 97.43}}]}` it returns
97.43 exactly. -/
theorem c3_extract_vmaf_score (j fr first m v : Json)
    (hf : j.lookup "frames" = some fr)
    (h0 : fr.index 0 = some first)
    (hm : first.lookup "metrics" = some m)
    (hv : m.lookup "vmaf" = some v) :
    extract_vmaf_score j = some v ∧
    extract_vmaf_score (Json.obj [("frames", Json.arr [Json.obj
        [("metrics", Json.obj [("vmaf", Json.num 97.43)])]])]) =
      some (Json.num 97.43) := by
  refine ⟨?_, rfl⟩
  simp [extract_vmaf_score, hf, h0, hm, hv]

/-- Witness for C3 at the parse of `{"frames":[{"metrics":{"vmaf":97.43}}]}`. -/
theorem c3_witness :
    extract_vmaf_score (mkResult 97.43) = some (Json.num 97.43) ∧
    extract_vmaf_score (Json.obj [("frames", Json.arr [Json.obj
        [("metrics", Json.obj [("vmaf", Json.num 97.43)])]])]) =
      some (Json.num 97.43) :=
  c3_extract_vmaf_score (mkResult 97.43)
    (.arr [.obj [("metrics", .obj [("vmaf", .num 97.43)])]])
    (.obj [("metrics", .obj [("vmaf", .num 97.43)])])
    (.obj [("vmaf", .num 97.43)]) (.num 97.43) rfl rfl rfl rfl

/-! ### Claim C4: the scoring tool's argument vector -/

/-- Claim C4 concerns the argument vector built by `compare_yuv_files`.  The
script's own header comment (line 20) documents the invocation with
`--feature float_ssim`, and the claim states the vector includes a
`--feature <variant>` flag, but the code builds the command without any
`--feature` flag: evaluated at concrete arguments, the vector is exactly the
13 entries below, and contains no `"--feature"` entry. -/
theorem c4_command_lacks_feature_flag :
    compare_yuv_files_command "vmaf" "yuv_dir/a1.yuv" "yuv_dir/a2.yuv"
        "json_dir/compare_0_1.json" =
      ["vmaf", "-r", "yuv_dir/a1.yuv", "-d", "yuv_dir/a2.yuv",
        "--width", "1920", "--height", "1080", "--pixel_format", "422",
        "--bitdepth", "8", "--json", "--output",
        "json_dir/compare_0_1.json"] ∧
    "--feature" ∉ compare_yuv_files_command "vmaf" "yuv_dir/a1.yuv"
      "yuv_dir/a2.yuv" "json_dir/compare_0_1.json" := by
  exact ⟨rfl, by decide⟩

/-! ### Lemmas: the successful run -/

theorem convertLoop_ok (env : Env) :
    ∀ (imgs : List String) (k : Nat),
      (∀ i, i < imgs.length → env.convertOk (k + i) = true) →
      convertLoop env k imgs = (convertEffects env imgs, .ok ()) := by
  intro imgs
  induction imgs with
  | nil => intro k _; rfl
  | cons img rest ih =>
    intro k h
    have h0 : env.convertOk k = true := by
      simpa using h 0 (by rw [List.length_cons]; omega)
    have hrest : ∀ i, i < rest.length → env.convertOk (k + 1 + i) = true := by
      intro i hi
      have := h (i + 1) (by rw [List.length_cons]; omega)
      rwa [show k + (i + 1) = k + 1 + i by omega] at this
    unfold convertLoop
    rw [h0, ih (k + 1) hrest]
    rfl

theorem compareLoop_ok (env : Env) :
    ∀ (pairs : List (String × String)) (j : Nat),
      (∀ i, i < pairs.length → env.compareOk (j + i) = true ∧
        ((env.resultFile (j + i)).bind extract_vmaf_score).isSome = true) →
      compareLoop env j pairs =
        (compareEffects env j pairs, .ok (compareRows env j pairs)) := by
  intro pairs
  induction pairs with
  | nil => intro j _; rfl
  | cons p rest ih =>
    obtain ⟨a, b⟩ := p
    intro j h
    have h0 := h 0 (by rw [List.length_cons]; omega)
    rw [Nat.add_zero] at h0
    obtain ⟨v, hv⟩ := Option.isSome_iff_exists.mp h0.2
    have hrest : ∀ i, i < rest.length → env.compareOk (j + 1 + i) = true ∧
        ((env.resultFile (j + 1 + i)).bind extract_vmaf_score).isSome
          = true := by
      intro i hi
      have := h (i + 1) (by rw [List.length_cons]; omega)
      rwa [show j + (i + 1) = j + 1 + i by omega] at this
    unfold compareLoop
    rw [h0.1, if_pos rfl, hv, ih (j + 1) hrest]
    simp only [Except.map, compareEffects, compareRows, hv, Option.getD_some]

theorem mainRun_ok (env : Env) (images : List String)
    (hsorted : get_sorted_image_list env.listing env.ext = some images)
    (hlen : 2 ≤ images.length)
    (hconv : ∀ k, k < images.length → env.convertOk k = true)
    (hcomp : ∀ j, j < images.length - 1 → env.compareOk j = true ∧
      ((env.resultFile j).bind extract_vmaf_score).isSome = true) :
    mainRun env = (.mkdir "yuv_dir" :: .mkdir "json_dir" ::
      (convertEffects env images ++
        compareEffects env 0 (images.zip images.tail) ++
        [.writeCsv env.outputCsv ["Image 1", "Image 2", "VMAF Score"]
          (compareRows env 0 (images.zip images.tail)),
         .print ("Comparison completed. Results saved to "
           ++ env.outputCsv)]), .ok ()) := by
  have hziplen : (images.zip images.tail).length = images.length - 1 := by
    rw [List.length_zip, List.length_tail]
    omega
  have hconv' : ∀ i, i < images.length → env.convertOk (0 + i) = true := by
    intro i hi
    rw [Nat.zero_add]
    exact hconv i hi
  have hcomp' : ∀ i, i < (images.zip images.tail).length →
      env.compareOk (0 + i) = true ∧
      ((env.resultFile (0 + i)).bind extract_vmaf_score).isSome = true := by
    intro i hi
    rw [Nat.zero_add]
    exact hcomp i (by omega)
  unfold mainRun
  rw [hsorted]
  simp only [if_neg (by omega : ¬ images.length < 2)]
  rw [convertLoop_ok env images 0 hconv',
    compareLoop_ok env (images.zip images.tail) 0 hcomp']

theorem isCompareRun_print (s : String) :
    isCompareRun (.print s) = false := rfl

theorem isCompareRun_mkdir (p : String) :
    isCompareRun (.mkdir p) = false := rfl

theorem isCompareRun_writeCsv (p : String) (h : List String)
    (r : List CsvRow) : isCompareRun (.writeCsv p h r) = false := rfl

theorem isCompareRun_convert (s d : String) (b : Bool) :
    isCompareRun (.runProcess (convert_to_yuv_command s d) b) = false := rfl

theorem isCompareRun_compare (e r d o : String) (b : Bool) :
    isCompareRun (.runProcess (compare_yuv_files_command e r d o) b) =
      true := rfl

theorem isCsvWrite_print (s : String) : isCsvWrite (.print s) = false := rfl

theorem isCsvWrite_mkdir (p : String) : isCsvWrite (.mkdir p) = false := rfl

theorem isCsvWrite_runProcess (cmd : List String) (b : Bool) :
    isCsvWrite (.runProcess cmd b) = false := rfl

theorem isCsvWrite_writeCsv (p : String) (h : List String)
    (r : List CsvRow) : isCsvWrite (.writeCsv p h r) = true := rfl

theorem convertEffects_filter_compare (env : Env) :
    ∀ imgs, (convertEffects env imgs).filter isCompareRun = [] := by
  intro imgs
  induction imgs with
  | nil => rfl
  | cons img rest ih =>
    rw [convertEffects]
    simp [List.filter_cons, isCompareRun_convert, ih]

theorem compareEffects_filter_compare (env : Env) :
    ∀ pairs j, (compareEffects env j pairs).filter isCompareRun =
      compareRuns env j pairs := by
  intro pairs
  induction pairs with
  | nil => intro j; rfl
  | cons p rest ih =>
    obtain ⟨a, b⟩ := p
    intro j
    rw [compareEffects]
    simp [List.filter_cons, isCompareRun_print, isCompareRun_compare,
      ih (j + 1), compareRuns]

theorem convertEffects_filter_csv (env : Env) :
    ∀ imgs, (convertEffects env imgs).filter isCsvWrite = [] := by
  intro imgs
  induction imgs with
  | nil => rfl
  | cons img rest ih =>
    rw [convertEffects]
    simp [List.filter_cons, isCsvWrite_runProcess, ih]

theorem compareEffects_filter_csv (env : Env) :
    ∀ pairs j, (compareEffects env j pairs).filter isCsvWrite = [] := by
  intro pairs
  induction pairs with
  | nil => intro j; rfl
  | cons p rest ih =>
    obtain ⟨a, b⟩ := p
    intro j
    rw [compareEffects]
    simp [List.filter_cons, isCsvWrite_print, isCsvWrite_runProcess,
      ih (j + 1)]

theorem compareRuns_length (env : Env) :
    ∀ pairs j, (compareRuns env j pairs).length = pairs.length := by
  intro pairs
  induction pairs with
  | nil => intro j; rfl
  | cons p rest ih =>
    obtain ⟨a, b⟩ := p
    intro j
    rw [compareRuns, List.length_cons, List.length_cons, ih (j + 1)]

theorem compareRuns_get (env : Env) :
    ∀ (pairs : List (String × String)) (i j : Nat) (a b : String),
      pairs[i]? = some (a, b) →
      (compareRuns env j pairs)[i]? = some (.runProcess
        (compare_yuv_files_command env.vmafExe (yuvPathOf a) (yuvPathOf b)
          (jsonPath (j + i))) true) := by
  intro pairs
  induction pairs with
  | nil => intro i j a b h; simp at h
  | cons p rest ih =>
    obtain ⟨a0, b0⟩ := p
    intro i j a b h
    match i with
    | 0 =>
      simp only [List.getElem?_cons_zero, Option.some.injEq,
        Prod.mk.injEq] at h
      rw [compareRuns, List.getElem?_cons_zero, ← h.1, ← h.2, Nat.add_zero]
    | i' + 1 =>
      rw [List.getElem?_cons_succ] at h
      rw [compareRuns, List.getElem?_cons_succ,
        show j + (i' + 1) = (j + 1) + i' by omega]
      exact ih i' (j + 1) a b h

theorem compareRows_names (env : Env) :
    ∀ pairs j, (compareRows env j pairs).map
      (fun r => (r.image1, r.image2)) = pairs := by
  intro pairs
  induction pairs with
  | nil => intro j; rfl
  | cons p rest ih =>
    obtain ⟨a, b⟩ := p
    intro j
    rw [compareRows, List.map_cons, ih (j + 1)]

theorem compareRows_length (env : Env) :
    ∀ pairs j, (compareRows env j pairs).length = pairs.length := by
  intro pairs
  induction pairs with
  | nil => intro j; rfl
  | cons p rest ih =>
    obtain ⟨a, b⟩ := p
    intro j
    rw [compareRows, List.length_cons, List.length_cons, ih (j + 1)]

theorem zip_tail_length (images : List String) :
    (images.zip images.tail).length = images.length - 1 := by
  rw [List.length_zip, List.length_tail]
  omega

/-! ### Claim C2: one comparison per adjacent pair -/

/-- Claim C2: with N listed images (N >= 2) and well-behaved tools, the run
succeeds, the scoring tool is invoked exactly N-1 times, the i-th invocation
(0-based pair index) taking the converted frames of `images[i]` as reference
and `images[i+1]` as distorted with the pair's own result path, all N-1
result paths are pairwise distinct, and the Reporter's row sequence has
exactly N-1 rows, the i-th pairing the names of `images[i]` and
`images[i+1]`. -/
theorem c2_comparator_per_pair (env : Env) (images : List String)
    (hsorted : get_sorted_image_list env.listing env.ext = some images)
    (hlen : 2 ≤ images.length)
    (hconv : ∀ k, k < images.length → env.convertOk k = true)
    (hcomp : ∀ j, j < images.length - 1 → env.compareOk j = true ∧
      ((env.resultFile j).bind extract_vmaf_score).isSome = true) :
    (mainRun env).2 = .ok () ∧
    ((mainRun env).1.filter isCompareRun).length = images.length - 1 ∧
    (∀ (i : Nat) (a b : String),
      (images.zip images.tail)[i]? = some (a, b) →
      ((mainRun env).1.filter isCompareRun)[i]? = some (.runProcess
        (compare_yuv_files_command env.vmafExe (yuvPathOf a) (yuvPathOf b)
          (jsonPath i)) true)) ∧
    ((List.range (images.length - 1)).map jsonPath).Nodup ∧
    ∃ rows, Effect.writeCsv env.outputCsv ["Image 1", "Image 2", "VMAF Score"]
        rows ∈ (mainRun env).1 ∧
      rows.map (fun r => (r.image1, r.image2)) = images.zip images.tail ∧
      rows.length = images.length - 1 := by
  have hrun := mainRun_ok env images hsorted hlen hconv hcomp
  have h1 : (mainRun env).1 = .mkdir "yuv_dir" :: .mkdir "json_dir" ::
      (convertEffects env images ++
        compareEffects env 0 (images.zip images.tail) ++
        [.writeCsv env.outputCsv ["Image 1", "Image 2", "VMAF Score"]
          (compareRows env 0 (images.zip images.tail)),
         .print ("Comparison completed. Results saved to "
           ++ env.outputCsv)]) := by
    rw [hrun]
  have hfilter : (mainRun env).1.filter isCompareRun =
      compareRuns env 0 (images.zip images.tail) := by
    rw [h1]
    simp [List.filter_cons, List.filter_append, List.filter_nil,
      isCompareRun_mkdir, isCompareRun_writeCsv, isCompareRun_print,
      convertEffects_filter_compare, compareEffects_filter_compare]
  refine ⟨by rw [hrun], ?_, ?_, ?_, ?_⟩
  · rw [hfilter, compareRuns_length, zip_tail_length]
  · intro i a b h
    rw [hfilter]
    have := compareRuns_get env (images.zip images.tail) i 0 a b h
    rwa [Nat.zero_add] at this
  · exact List.Nodup.map jsonPath_injective (List.nodup_range _)
  · refine ⟨compareRows env 0 (images.zip images.tail), ?_,
      compareRows_names env _ 0, ?_⟩
    · rw [h1]
      simp
    · rw [compareRows_length, zip_tail_length]

/-- Witness for C2 at the three-image environment `env3`. -/
theorem c2_witness :
    (mainRun env3).2 = .ok () ∧
    ((mainRun env3).1.filter isCompareRun).length =
      ["a1.png", "a2.png", "a3.png"].length - 1 ∧
    (∀ (i : Nat) (a b : String),
      (["a1.png", "a2.png", "a3.png"].zip
        ["a1.png", "a2.png", "a3.png"].tail)[i]? = some (a, b) →
      ((mainRun env3).1.filter isCompareRun)[i]? = some (.runProcess
        (compare_yuv_files_command env3.vmafExe (yuvPathOf a) (yuvPathOf b)
          (jsonPath i)) true)) ∧
    ((List.range (["a1.png", "a2.png", "a3.png"].length - 1)).map
      jsonPath).Nodup ∧
    ∃ rows, Effect.writeCsv env3.outputCsv
        ["Image 1", "Image 2", "VMAF Score"] rows ∈ (mainRun env3).1 ∧
      rows.map (fun r => (r.image1, r.image2)) =
        ["a1.png", "a2.png", "a3.png"].zip
          ["a1.png", "a2.png", "a3.png"].tail ∧
      rows.length = ["a1.png", "a2.png", "a3.png"].length - 1 :=
  c2_comparator_per_pair env3 ["a1.png", "a2.png", "a3.png"] (by rfl)
    (by decide) (by decide) (by decide)

/-! ### Claim C9: the Reporter -/

theorem fsAfter_append (l1 l2 : List Effect) (fs0 : String → Option FileData) :
    fsAfter fs0 (l1 ++ l2) = fsAfter (fsAfter fs0 l1) l2 := by
  induction l1 generalizing fs0 with
  | nil => rfl
  | cons e rest ih =>
    rw [List.cons_append, fsAfter, fsAfter, ih]

/-- Claim C9: a successful run writes the CSV exactly once, with the header
`Image 1, Image 2, VMAF Score` followed by one row per comparison in
production order, and the write lands at the output path whatever was there
before (overwriting); in particular on `a1.png, a2.png, a3.png` with stubbed
scores 90 and 95.5 the written rows are exactly
`(a1.png, a2.png, 90)` then `(a2.png, a3.png, 95.5)`. -/
theorem c9_reporter_csv (env : Env) (images : List String)
    (hsorted : get_sorted_image_list env.listing env.ext = some images)
    (hlen : 2 ≤ images.length)
    (hconv : ∀ k, k < images.length → env.convertOk k = true)
    (hcomp : ∀ j, j < images.length - 1 → env.compareOk j = true ∧
      ((env.resultFile j).bind extract_vmaf_score).isSome = true) :
    (mainRun env).2 = .ok () ∧
    (mainRun env).1.filter isCsvWrite =
      [.writeCsv env.outputCsv ["Image 1", "Image 2", "VMAF Score"]
        (compareRows env 0 (images.zip images.tail))] ∧
    (compareRows env 0 (images.zip images.tail)).map
      (fun r => (r.image1, r.image2)) = images.zip images.tail ∧
    (∀ fs0, fsAfter fs0 (mainRun env).1 env.outputCsv =
      some (.csvData ["Image 1", "Image 2", "VMAF Score"]
        (compareRows env 0 (images.zip images.tail)))) ∧
    (mainRun env3).1.filter isCsvWrite =
      [.writeCsv "comparison.csv" ["Image 1", "Image 2", "VMAF Score"]
        [⟨"a1.png", "a2.png", .num 90⟩, ⟨"a2.png", "a3.png", .num 95.5⟩]] := by
  have hrun := mainRun_ok env images hsorted hlen hconv hcomp
  have h1 : (mainRun env).1 = .mkdir "yuv_dir" :: .mkdir "json_dir" ::
      (convertEffects env images ++
        compareEffects env 0 (images.zip images.tail) ++
        [.writeCsv env.outputCsv ["Image 1", "Image 2", "VMAF Score"]
          (compareRows env 0 (images.zip images.tail)),
         .print ("Comparison completed. Results saved to "
           ++ env.outputCsv)]) := by
    rw [hrun]
  refine ⟨by rw [hrun], ?_, compareRows_names env _ 0, ?_, by rfl⟩
  · rw [h1]
    simp [List.filter_cons, List.filter_append, List.filter_nil,
      isCsvWrite_mkdir, isCsvWrite_writeCsv, isCsvWrite_print,
      convertEffects_filter_csv, compareEffects_filter_csv]
  · intro fs0
    rw [h1]
    show fsAfter _ ((Effect.mkdir "yuv_dir" :: Effect.mkdir "json_dir" ::
      (convertEffects env images ++
        compareEffects env 0 (images.zip images.tail))) ++
      [.writeCsv env.outputCsv ["Image 1", "Image 2", "VMAF Score"]
        (compareRows env 0 (images.zip images.tail)),
       .print ("Comparison completed. Results saved to "
         ++ env.outputCsv)]) env.outputCsv = _
    rw [fsAfter_append]
    simp [fsAfter, applyEffect]

/-- Witness for C9 at the three-image environment `env3`. -/
theorem c9_witness :
    (mainRun env3).2 = .ok () ∧
    (mainRun env3).1.filter isCsvWrite =
      [.writeCsv env3.outputCsv ["Image 1", "Image 2", "VMAF Score"]
        (compareRows env3 0 (["a1.png", "a2.png", "a3.png"].zip
          ["a1.png", "a2.png", "a3.png"].tail))] ∧
    (compareRows env3 0 (["a1.png", "a2.png", "a3.png"].zip
        ["a1.png", "a2.png", "a3.png"].tail)).map
      (fun r => (r.image1, r.image2)) =
      ["a1.png", "a2.png", "a3.png"].zip
        ["a1.png", "a2.png", "a3.png"].tail ∧
    (∀ fs0, fsAfter fs0 (mainRun env3).1 env3.outputCsv =
      some (.csvData ["Image 1", "Image 2", "VMAF Score"]
        (compareRows env3 0 (["a1.png", "a2.png", "a3.png"].zip
          ["a1.png", "a2.png", "a3.png"].tail)))) ∧
    (mainRun env3).1.filter isCsvWrite =
      [.writeCsv "comparison.csv" ["Image 1", "Image 2", "VMAF Score"]
        [⟨"a1.png", "a2.png", .num 90⟩, ⟨"a2.png", "a3.png", .num 95.5⟩]] :=
  c9_reporter_csv env3 ["a1.png", "a2.png", "a3.png"] (by rfl)
    (by decide) (by decide) (by decide)

/-! ### Claim C7: abort on external tool failure -/

theorem convertLoop_noCsv (env : Env) :
    ∀ imgs k, noCsvT (convertLoop env k imgs).1 := by
  intro imgs
  induction imgs with
  | nil => intro k p h r hmem; cases hmem
  | cons img rest ih =>
    intro k p h r hmem
    by_cases hc : env.convertOk k = true
    · rw [show convertLoop env k (img :: rest) =
          (.runProcess (convert_to_yuv_command (joinPath env.dir img)
            (yuvPathOf img)) true :: (convertLoop env (k + 1) rest).1,
           (convertLoop env (k + 1) rest).2) by simp [convertLoop, hc]]
        at hmem
      rcases List.mem_cons.mp hmem with h' | h'
      · cases h'
      · exact ih (k + 1) p h r h'
    · rw [show convertLoop env k (img :: rest) =
          ([.runProcess (convert_to_yuv_command (joinPath env.dir img)
            (yuvPathOf img)) false], .error .externalToolError)
          by simp [convertLoop, hc]] at hmem
      rcases List.mem_cons.mp hmem with h' | h'
      · cases h'
      · cases h'

theorem compareLoop_noCsv (env : Env) :
    ∀ pairs j, noCsvT (compareLoop env j pairs).1 := by
  intro pairs
  induction pairs with
  | nil => intro j p h r hmem; cases hmem
  | cons q rest ih =>
    obtain ⟨a, b⟩ := q
    intro j p h r hmem
    by_cases hc : env.compareOk j = true
    · cases hres : (env.resultFile j).bind extract_vmaf_score with
      | none =>
        rw [show compareLoop env j ((a, b) :: rest) =
            ([.print (String.intercalate " " (compare_yuv_files_command
                env.vmafExe (yuvPathOf a) (yuvPathOf b) (jsonPath j))),
              .runProcess (compare_yuv_files_command env.vmafExe
                (yuvPathOf a) (yuvPathOf b) (jsonPath j)) true],
             .error .malformedResult) by simp [compareLoop, hc, hres]]
          at hmem
        rcases List.mem_cons.mp hmem with h' | h'
        · cases h'
        rcases List.mem_cons.mp h' with h'' | h''
        · cases h''
        · cases h''
      | some v =>
        rw [show compareLoop env j ((a, b) :: rest) =
            (.print (String.intercalate " " (compare_yuv_files_command
                env.vmafExe (yuvPathOf a) (yuvPathOf b) (jsonPath j))) ::
              .runProcess (compare_yuv_files_command env.vmafExe
                (yuvPathOf a) (yuvPathOf b) (jsonPath j)) true ::
              (compareLoop env (j + 1) rest).1,
             (compareLoop env (j + 1) rest).2.map
               (fun rows => ⟨a, b, v⟩ :: rows))
            by simp [compareLoop, hc, hres]] at hmem
        rcases List.mem_cons.mp hmem with h' | h'
        · cases h'
        rcases List.mem_cons.mp h' with h'' | h''
        · cases h''
        · exact ih (j + 1) p h r h''
    · rw [show compareLoop env j ((a, b) :: rest) =
          ([.print (String.intercalate " " (compare_yuv_files_command
              env.vmafExe (yuvPathOf a) (yuvPathOf b) (jsonPath j))),
            .runProcess (compare_yuv_files_command env.vmafExe
              (yuvPathOf a) (yuvPathOf b) (jsonPath j)) false],
           .error .externalToolError) by simp [compareLoop, hc]] at hmem
      rcases List.mem_cons.mp hmem with h' | h'
      · cases h'
      rcases List.mem_cons.mp h' with h'' | h''
      · cases h''
      · cases h''

theorem convertLoop_spec (env : Env) :
    ∀ imgs k,
      ((convertLoop env k imgs).2 = .ok () ∧
        cleanT (convertLoop env k imgs).1) ∨
      ((convertLoop env k imgs).2 = .error .externalToolError ∧
        ∃ tr c, (convertLoop env k imgs).1 = tr ++ [.runProcess c false] ∧
          cleanT tr) := by
  intro imgs
  induction imgs with
  | nil =>
    intro k
    exact .inl ⟨rfl, fun c hmem => by cases hmem⟩
  | cons img rest ih =>
    intro k
    by_cases hc : env.convertOk k = true
    · have heq : convertLoop env k (img :: rest) =
          (.runProcess (convert_to_yuv_command (joinPath env.dir img)
            (yuvPathOf img)) true :: (convertLoop env (k + 1) rest).1,
           (convertLoop env (k + 1) rest).2) := by
        simp [convertLoop, hc]
      rcases ih (k + 1) with ⟨hok, hclean⟩ | ⟨herr, tr, c, htr, hclean⟩
      · refine .inl ⟨by rw [heq]; exact hok, ?_⟩
        rw [heq]
        intro c hmem
        rcases List.mem_cons.mp hmem with h' | h'
        · cases h'
        · exact hclean c h'
      · refine .inr ⟨by rw [heq]; exact herr,
          .runProcess (convert_to_yuv_command (joinPath env.dir img)
            (yuvPathOf img)) true :: tr, c, ?_, ?_⟩
        · rw [heq]
          show _ :: (convertLoop env (k + 1) rest).1 = _
          rw [htr, List.cons_append]
        · intro c' hmem
          rcases List.mem_cons.mp hmem with h' | h'
          · cases h'
          · exact hclean c' h'
    · have heq : convertLoop env k (img :: rest) =
          ([.runProcess (convert_to_yuv_command (joinPath env.dir img)
            (yuvPathOf img)) false], .error .externalToolError) := by
        simp [convertLoop, hc]
      refine .inr ⟨by rw [heq], [],
        convert_to_yuv_command (joinPath env.dir img) (yuvPathOf img),
        by rw [heq]; rfl, fun c hmem => by cases hmem⟩

theorem compareLoop_spec (env : Env) :
    ∀ pairs j,
      ((∃ rows, (compareLoop env j pairs).2 = .ok rows) ∧
        cleanT (compareLoop env j pairs).1) ∨
      ((compareLoop env j pairs).2 = .error .externalToolError ∧
        ∃ tr c, (compareLoop env j pairs).1 = tr ++ [.runProcess c false] ∧
          cleanT tr) ∨
      ((compareLoop env j pairs).2 = .error .malformedResult ∧
        cleanT (compareLoop env j pairs).1) := by
  intro pairs
  induction pairs with
  | nil =>
    intro j
    exact .inl ⟨⟨[], rfl⟩, fun c hmem => by cases hmem⟩
  | cons q rest ih =>
    obtain ⟨a, b⟩ := q
    intro j
    by_cases hc : env.compareOk j = true
    · cases hres : (env.resultFile j).bind extract_vmaf_score with
      | none =>
        have heq : compareLoop env j ((a, b) :: rest) =
            ([.print (String.intercalate " " (compare_yuv_files_command
                env.vmafExe (yuvPathOf a) (yuvPathOf b) (jsonPath j))),
              .runProcess (compare_yuv_files_command env.vmafExe
                (yuvPathOf a) (yuvPathOf b) (jsonPath j)) true],
             .error .malformedResult) := by
          simp [compareLoop, hc, hres]
        refine .inr (.inr ⟨by rw [heq], ?_⟩)
        rw [heq]
        intro c hmem
        rcases List.mem_cons.mp hmem with h' | h'
        · cases h'
        rcases List.mem_cons.mp h' with h'' | h''
        · cases h''
        · cases h''
      | some v =>
        have heq : compareLoop env j ((a, b) :: rest) =
            (.print (String.intercalate " " (compare_yuv_files_command
                env.vmafExe (yuvPathOf a) (yuvPathOf b) (jsonPath j))) ::
              .runProcess (compare_yuv_files_command env.vmafExe
                (yuvPathOf a) (yuvPathOf b) (jsonPath j)) true ::
              (compareLoop env (j + 1) rest).1,
             (compareLoop env (j + 1) rest).2.map
               (fun rows => ⟨a, b, v⟩ :: rows)) := by
          simp [compareLoop, hc, hres]
        rcases ih (j + 1) with ⟨⟨rows, hok⟩, hclean⟩ |
          ⟨herr, tr, c, htr, hclean⟩ | ⟨herr, hclean⟩
        · refine .inl ⟨⟨⟨a, b, v⟩ :: rows, ?_⟩, ?_⟩
          · rw [heq]
            show ((compareLoop env (j + 1) rest).2.map _) = _
            rw [hok]
            rfl
          · rw [heq]
            intro c hmem
            rcases List.mem_cons.mp hmem with h' | h'
            · cases h'
            rcases List.mem_cons.mp h' with h'' | h''
            · cases h''
            · exact hclean c h''
        · refine .inr (.inl ⟨?_, .print (String.intercalate " "
              (compare_yuv_files_command env.vmafExe (yuvPathOf a)
                (yuvPathOf b) (jsonPath j))) ::
              .runProcess (compare_yuv_files_command env.vmafExe
                (yuvPathOf a) (yuvPathOf b) (jsonPath j)) true :: tr,
              c, ?_, ?_⟩)
          · rw [heq]
            show ((compareLoop env (j + 1) rest).2.map _) = _
            rw [herr]
            rfl
          · rw [heq]
            show _ :: _ :: (compareLoop env (j + 1) rest).1 = _
            rw [htr, List.cons_append, List.cons_append]
          · intro c' hmem
            rcases List.mem_cons.mp hmem with h' | h'
            · cases h'
            rcases List.mem_cons.mp h' with h'' | h''
            · cases h''
            · exact hclean c' h''
        · refine .inr (.inr ⟨?_, ?_⟩)
          · rw [heq]
            show ((compareLoop env (j + 1) rest).2.map _) = _
            rw [herr]
            rfl
          · rw [heq]
            intro c hmem
            rcases List.mem_cons.mp hmem with h' | h'
            · cases h'
            rcases List.mem_cons.mp h' with h'' | h''
            · cases h''
            · exact hclean c h''
    · have heq : compareLoop env j ((a, b) :: rest) =
          ([.print (String.intercalate " " (compare_yuv_files_command
              env.vmafExe (yuvPathOf a) (yuvPathOf b) (jsonPath j))),
            .runProcess (compare_yuv_files_command env.vmafExe
              (yuvPathOf a) (yuvPathOf b) (jsonPath j)) false],
           .error .externalToolError) := by
        simp [compareLoop, hc]
      refine .inr (.inl ⟨by rw [heq],
        [.print (String.intercalate " " (compare_yuv_files_command
          env.vmafExe (yuvPathOf a) (yuvPathOf b) (jsonPath j)))],
        compare_yuv_files_command env.vmafExe (yuvPathOf a) (yuvPathOf b)
          (jsonPath j), by rw [heq]; rfl,
        fun c hmem => by
          rcases List.mem_cons.mp hmem with h' | h'
          · cases h'
          · cases h'⟩)

theorem cons_cons_append_concat (x y z : Effect) (l : List Effect) :
    (x :: y :: (l ++ [z])).getLast? = some z := by
  rw [show x :: y :: (l ++ [z]) = (x :: y :: l) ++ [z] by simp,
    List.getLast?_concat]

theorem cons_cons_append_append_concat (x y z : Effect)
    (l1 l2 : List Effect) :
    (x :: y :: (l1 ++ (l2 ++ [z]))).getLast? = some z := by
  rw [show x :: y :: (l1 ++ (l2 ++ [z])) = (x :: y :: (l1 ++ l2)) ++ [z]
    by simp, List.getLast?_concat]

/-- Claim C7: whenever an external tool invocation in the run exits non-zero
(a `runProcess` effect recorded with exit flag `false`), the run's outcome is
the ExternalToolError, the failing invocation is the very last effect of the
run (nothing further is processed and there is no retry), and no CSV write
occurs in the run. -/
theorem c7_abort_on_tool_failure (env : Env) (cmd : List String)
    (hfail : Effect.runProcess cmd false ∈ (mainRun env).1) :
    (mainRun env).2 = .error .externalToolError ∧
    (mainRun env).1.getLast? = some (.runProcess cmd false) ∧
    noCsvT (mainRun env).1 := by
  rcases hs : get_sorted_image_list env.listing env.ext with _ | images
  · have h1 : (mainRun env).1 = [] := by simp [mainRun, hs]
    rw [h1] at hfail
    cases hfail
  · by_cases hlen : images.length < 2
    · have h1 : (mainRun env).1 =
          [.print "Not enough images to compare."] := by
        simp [mainRun, hs, hlen]
      rw [h1] at hfail
      rcases List.mem_cons.mp hfail with h' | h'
      · cases h'
      · cases h'
    · rcases hcv : convertLoop env 0 images with ⟨ctr, cres⟩
      have hctr : (convertLoop env 0 images).1 = ctr := by rw [hcv]
      have hcres : (convertLoop env 0 images).2 = cres := by rw [hcv]
      have hnoCsvCtr : noCsvT ctr := by
        rw [← hctr]
        exact convertLoop_noCsv env images 0
      cases cres with
      | error e =>
        have hmain : mainRun env =
            (.mkdir "yuv_dir" :: .mkdir "json_dir" :: ctr, .error e) := by
          simp [mainRun, hs, hlen, hcv]
        rcases convertLoop_spec env images 0 with ⟨hok, _⟩ |
          ⟨herr, tr, c, htr, hclean⟩
        · rw [hcres] at hok
          simp at hok
        · rw [hcres] at herr
          injection herr with he
          subst he
          rw [hctr] at htr
          rw [hmain] at hfail
          have hcmd : cmd = c := by
            rcases List.mem_cons.mp hfail with h' | h'
            · cases h'
            rcases List.mem_cons.mp h' with h'' | h''
            · cases h''
            rw [htr] at h''
            rcases List.mem_append.mp h'' with h3 | h3
            · exact absurd h3 (hclean cmd)
            · rw [List.mem_singleton] at h3
              injection h3 with h4 _
          subst hcmd
          rw [hmain, htr]
          refine ⟨rfl, cons_cons_append_concat _ _ _ tr, ?_⟩
          intro p h r hmem
          rcases List.mem_cons.mp hmem with h' | h'
          · cases h'
          rcases List.mem_cons.mp h' with h'' | h''
          · cases h''
          · exact hnoCsvCtr p h r (htr ▸ h'')
      | ok u =>
        have hcleanctr : cleanT ctr := by
          rcases convertLoop_spec env images 0 with ⟨_, hclean⟩ | ⟨herr, _⟩
          · rwa [hctr] at hclean
          · rw [hcres] at herr
            simp at herr
        rcases hcp : compareLoop env 0 (images.zip images.tail)
          with ⟨ptr, pres⟩
        have hptr : (compareLoop env 0 (images.zip images.tail)).1 = ptr := by
          rw [hcp]
        have hpres : (compareLoop env 0 (images.zip images.tail)).2 =
            pres := by
          rw [hcp]
        have hnoCsvPtr : noCsvT ptr := by
          rw [← hptr]
          exact compareLoop_noCsv env (images.zip images.tail) 0
        cases pres with
        | error e =>
          have hmain : mainRun env = (.mkdir "yuv_dir" :: .mkdir "json_dir"
              :: (ctr ++ ptr), .error e) := by
            simp [mainRun, hs, hlen, hcv, hcp]
          rcases compareLoop_spec env (images.zip images.tail) 0 with
            ⟨⟨rows, hok⟩, _⟩ | ⟨herr, tr, c, htr, hclean⟩ | ⟨herr, hclean⟩
          · rw [hpres] at hok
            simp at hok
          · rw [hpres] at herr
            injection herr with he
            subst he
            rw [hptr] at htr
            rw [hmain] at hfail
            have hcmd : cmd = c := by
              rcases List.mem_cons.mp hfail with h' | h'
              · cases h'
              rcases List.mem_cons.mp h' with h'' | h''
              · cases h''
              rcases List.mem_append.mp h'' with h3 | h3
              · exact absurd h3 (hcleanctr cmd)
              rw [htr] at h3
              rcases List.mem_append.mp h3 with h4 | h4
              · exact absurd h4 (hclean cmd)
              · rw [List.mem_singleton] at h4
                injection h4 with h5 _
            subst hcmd
            rw [hmain, htr]
            refine ⟨rfl, cons_cons_append_append_concat _ _ _ ctr tr, ?_⟩
            intro p h r hmem
            rcases List.mem_cons.mp hmem with h' | h'
            · cases h'
            rcases List.mem_cons.mp h' with h'' | h''
            · cases h''
            rcases List.mem_append.mp h'' with h3 | h3
            · exact hnoCsvCtr p h r h3
            · exact hnoCsvPtr p h r (htr ▸ h3)
          · rw [hpres] at herr
            injection herr with he
            subst he
            rw [hptr] at hclean
            rw [hmain] at hfail
            exfalso
            rcases List.mem_cons.mp hfail with h' | h'
            · cases h'
            rcases List.mem_cons.mp h' with h'' | h''
            · cases h''
            rcases List.mem_append.mp h'' with h3 | h3
            · exact absurd h3 (hcleanctr cmd)
            · exact absurd h3 (hclean cmd)
        | ok rows =>
          have hcleanptr : cleanT ptr := by
            rcases compareLoop_spec env (images.zip images.tail) 0 with
              ⟨_, hclean⟩ | ⟨herr, _⟩ | ⟨herr, _⟩
            · rwa [hptr] at hclean
            · rw [hpres] at herr
              simp at herr
            · rw [hpres] at herr
              simp at herr
          have hmain : mainRun env = (.mkdir "yuv_dir" :: .mkdir "json_dir"
              :: (ctr ++ ptr ++
                [.writeCsv env.outputCsv
                  ["Image 1", "Image 2", "VMAF Score"] rows,
                 .print ("Comparison completed. Results saved to "
                   ++ env.outputCsv)]), .ok ()) := by
            simp [mainRun, hs, hlen, hcv, hcp]
          rw [hmain] at hfail
          exfalso
          rcases List.mem_cons.mp hfail with h' | h'
          · cases h'
          rcases List.mem_cons.mp h' with h'' | h''
          · cases h''
          rcases List.mem_append.mp h'' with h3 | h3
          rcases List.mem_append.mp h3 with h4 | h4
          · exact absurd h4 (hcleanctr cmd)
          · exact absurd h4 (hcleanptr cmd)
          · rcases List.mem_cons.mp h3 with h4 | h4
            · cases h4
            rcases List.mem_cons.mp h4 with h5 | h5
            · cases h5
            · cases h5

/-- Witness for C7: two images with a conversion tool that exits non-zero on
its first invocation. -/
theorem c7_witness :
    Effect.runProcess (convert_to_yuv_command "pics/a1.png"
      "yuv_dir/a1.yuv") false ∈ (mainRun envConvFail).1 ∧
    (mainRun envConvFail).2 = .error .externalToolError ∧
    (mainRun envConvFail).1.getLast? = some (.runProcess
      (convert_to_yuv_command "pics/a1.png" "yuv_dir/a1.yuv") false) ∧
    noCsvT (mainRun envConvFail).1 := by
  have h1 : (mainRun envConvFail).1 = [.mkdir "yuv_dir", .mkdir "json_dir",
      .runProcess (convert_to_yuv_command "pics/a1.png" "yuv_dir/a1.yuv")
        false] := rfl
  have hmem : Effect.runProcess (convert_to_yuv_command "pics/a1.png"
      "yuv_dir/a1.yuv") false ∈ (mainRun envConvFail).1 := by
    rw [h1]
    exact List.Mem.tail _ (List.Mem.tail _ (List.Mem.head _))
  exact ⟨hmem, c7_abort_on_tool_failure envConvFail _ hmem⟩

/-! ### Claim C8: the Converter -/

theorem isConvertRun_convert (s d : String) (b : Bool) :
    isConvertRun (.runProcess (convert_to_yuv_command s d) b) = true := rfl

theorem isConvertRun_compare (e r d o : String) (b : Bool) :
    isConvertRun (.runProcess (compare_yuv_files_command e r d o) b) =
      false := rfl

theorem isConvertRun_print (s : String) :
    isConvertRun (.print s) = false := rfl

theorem isConvertRun_mkdir (p : String) :
    isConvertRun (.mkdir p) = false := rfl

theorem isConvertRun_writeCsv (p : String) (h : List String)
    (r : List CsvRow) : isConvertRun (.writeCsv p h r) = false := rfl

theorem convertEffects_filter_convert (env : Env) :
    ∀ imgs, (convertEffects env imgs).filter isConvertRun =
      imgs.map (fun img => .runProcess (convert_to_yuv_command
        (joinPath env.dir img) (yuvPathOf img)) true) := by
  intro imgs
  induction imgs with
  | nil => rfl
  | cons img rest ih =>
    rw [convertEffects]
    simp [List.filter_cons, isConvertRun_convert, ih]

theorem compareLoop_noConvert (env : Env) :
    ∀ pairs j e, e ∈ (compareLoop env j pairs).1 →
      isConvertRun e = false := by
  intro pairs
  induction pairs with
  | nil => intro j e hmem; cases hmem
  | cons q rest ih =>
    obtain ⟨a, b⟩ := q
    intro j e hmem
    by_cases hc : env.compareOk j = true
    · cases hres : (env.resultFile j).bind extract_vmaf_score with
      | none =>
        rw [show compareLoop env j ((a, b) :: rest) =
            ([.print (String.intercalate " " (compare_yuv_files_command
                env.vmafExe (yuvPathOf a) (yuvPathOf b) (jsonPath j))),
              .runProcess (compare_yuv_files_command env.vmafExe
                (yuvPathOf a) (yuvPathOf b) (jsonPath j)) true],
             .error .malformedResult) by simp [compareLoop, hc, hres]]
          at hmem
        rcases List.mem_cons.mp hmem with h' | h'
        · rw [h']
          exact isConvertRun_print _
        rcases List.mem_cons.mp h' with h'' | h''
        · rw [h'']
          exact isConvertRun_compare _ _ _ _ _
        · cases h''
      | some v =>
        rw [show compareLoop env j ((a, b) :: rest) =
            (.print (String.intercalate " " (compare_yuv_files_command
                env.vmafExe (yuvPathOf a) (yuvPathOf b) (jsonPath j))) ::
              .runProcess (compare_yuv_files_command env.vmafExe
                (yuvPathOf a) (yuvPathOf b) (jsonPath j)) true ::
              (compareLoop env (j + 1) rest).1,
             (compareLoop env (j + 1) rest).2.map
               (fun rows => ⟨a, b, v⟩ :: rows))
            by simp [compareLoop, hc, hres]] at hmem
        rcases List.mem_cons.mp hmem with h' | h'
        · rw [h']
          exact isConvertRun_print _
        rcases List.mem_cons.mp h' with h'' | h''
        · rw [h'']
          exact isConvertRun_compare _ _ _ _ _
        · exact ih (j + 1) e h''
    · rw [show compareLoop env j ((a, b) :: rest) =
          ([.print (String.intercalate " " (compare_yuv_files_command
              env.vmafExe (yuvPathOf a) (yuvPathOf b) (jsonPath j))),
            .runProcess (compare_yuv_files_command env.vmafExe
              (yuvPathOf a) (yuvPathOf b) (jsonPath j)) false],
           .error .externalToolError) by simp [compareLoop, hc]] at hmem
      rcases List.mem_cons.mp hmem with h' | h'
      · rw [h']
        exact isConvertRun_print _
      rcases List.mem_cons.mp h' with h'' | h''
      · rw [h'']
        exact isConvertRun_compare _ _ _ _ _
      · cases h''

theorem mainRun_convert_prefix (env : Env) (images : List String)
    (hs : get_sorted_image_list env.listing env.ext = some images)
    (hlen : 2 ≤ images.length)
    (hconv : ∀ k, k < images.length → env.convertOk k = true) :
    ∃ tr2, (mainRun env).1 = .mkdir "yuv_dir" :: .mkdir "json_dir" ::
      (convertEffects env images ++ tr2) ∧
      tr2.filter isConvertRun = [] := by
  have hconv' : ∀ i, i < images.length → env.convertOk (0 + i) = true := by
    intro i hi
    rw [Nat.zero_add]
    exact hconv i hi
  have hcv := convertLoop_ok env images 0 hconv'
  rcases hcp : compareLoop env 0 (images.zip images.tail) with ⟨ptr, pres⟩
  have hptrfilter : ptr.filter isConvertRun = [] := by
    refine List.filter_eq_nil_iff.mpr (fun e hmem => ?_)
    have : e ∈ (compareLoop env 0 (images.zip images.tail)).1 := by
      rw [hcp]
      exact hmem
    simp [compareLoop_noConvert env (images.zip images.tail) 0 e this]
  cases pres with
  | error e =>
    refine ⟨ptr, ?_, hptrfilter⟩
    simp [mainRun, hs, hcv, hcp, show ¬ images.length < 2 by omega]
  | ok rows =>
    refine ⟨ptr ++ [.writeCsv env.outputCsv
      ["Image 1", "Image 2", "VMAF Score"] rows,
      .print ("Comparison completed. Results saved to "
        ++ env.outputCsv)], ?_, ?_⟩
    · simp [mainRun, hs, hcv, hcp, show ¬ images.length < 2 by omega]
    · rw [List.filter_append, hptrfilter]
      simp [List.filter_cons, isConvertRun_writeCsv, isConvertRun_print]

theorem applyEffect_convert (fs : String → Option FileData) (s d : String) :
    applyEffect fs (.runProcess (convert_to_yuv_command s d) true) =
      fun p => if p = d then some .yuvData else fs p := by
  funext p
  simp [applyEffect, convert_to_yuv_command, eq_comm]

theorem fsAfter_convertEffects_preserve (env : Env) :
    ∀ imgs (fs : String → Option FileData) p, fs p = some .yuvData →
      fsAfter fs (convertEffects env imgs) p = some .yuvData := by
  intro imgs
  induction imgs with
  | nil => intro fs p h; exact h
  | cons img rest ih =>
    intro fs p h
    rw [convertEffects, fsAfter]
    apply ih
    rw [applyEffect_convert]
    by_cases hp : p = yuvPathOf img
    · simp [hp]
    · simp [hp, h]

theorem fsAfter_convertEffects (env : Env) :
    ∀ imgs (fs : String → Option FileData) img, img ∈ imgs →
      fsAfter fs (convertEffects env imgs) (yuvPathOf img) =
        some .yuvData := by
  intro imgs
  induction imgs with
  | nil => intro fs img h; cases h
  | cons img0 rest ih =>
    intro fs img hmem
    rw [convertEffects, fsAfter]
    rcases List.mem_cons.mp hmem with h' | h'
    · subst h'
      apply fsAfter_convertEffects_preserve
      rw [applyEffect_convert]
      simp
    · exact ih _ img h'

/-- Claim C8: when the run reaches the conversion stage and every conversion
exits zero, the conversion tool is invoked exactly once per listed image, in
the Lister's output order, with argument vector
`ffmpeg -i <src> -s 1920x1080 -pix_fmt yuv422p <dst>` where `<dst>` is the
source's base name with extension `.yuv` inside the working directory
`yuv_dir`; and (per the spec's contract for the external tool, modelled by
`applyEffect`) each invocation leaves a frame file at its destination path,
whatever was there before. -/
theorem c8_converter_calls (env : Env) (images : List String)
    (hs : get_sorted_image_list env.listing env.ext = some images)
    (hlen : 2 ≤ images.length)
    (hconv : ∀ k, k < images.length → env.convertOk k = true) :
    (∃ tr2, (mainRun env).1 = .mkdir "yuv_dir" :: .mkdir "json_dir" ::
      (convertEffects env images ++ tr2)) ∧
    (mainRun env).1.filter isConvertRun = images.map (fun img =>
      .runProcess (convert_to_yuv_command (joinPath env.dir img)
        (yuvPathOf img)) true) ∧
    ∀ (fs0 : String → Option FileData) img, img ∈ images →
      fsAfter fs0 (.mkdir "yuv_dir" :: .mkdir "json_dir" ::
        convertEffects env images) (yuvPathOf img) = some .yuvData := by
  obtain ⟨tr2, htr, hfil2⟩ := mainRun_convert_prefix env images hs hlen hconv
  refine ⟨⟨tr2, htr⟩, ?_, ?_⟩
  · rw [htr]
    simp only [List.filter_cons, isConvertRun_mkdir, List.filter_append,
      convertEffects_filter_convert, hfil2, List.append_nil,
      Bool.false_eq_true, if_false]
  · intro fs0 img hmem
    rw [fsAfter, fsAfter]
    exact fsAfter_convertEffects env images _ img hmem

/-- Witness for C8 at the three-image environment `env3`. -/
theorem c8_witness :
    (∃ tr2, (mainRun env3).1 = .mkdir "yuv_dir" :: .mkdir "json_dir" ::
      (convertEffects env3 ["a1.png", "a2.png", "a3.png"] ++ tr2)) ∧
    (mainRun env3).1.filter isConvertRun =
      ["a1.png", "a2.png", "a3.png"].map (fun img =>
        .runProcess (convert_to_yuv_command (joinPath env3.dir img)
          (yuvPathOf img)) true) ∧
    ∀ (fs0 : String → Option FileData) img,
      img ∈ ["a1.png", "a2.png", "a3.png"] →
      fsAfter fs0 (.mkdir "yuv_dir" :: .mkdir "json_dir" ::
        convertEffects env3 ["a1.png", "a2.png", "a3.png"])
        (yuvPathOf img) = some .yuvData :=
  c8_converter_calls env3 ["a1.png", "a2.png", "a3.png"] (by rfl)
    (by decide) (by decide)

end ComparePics
